import Mathlib

/-!
Shallow embedding of the `glon` memory-introspection toolkit and proofs
about the behaviour its specification claims.

Embedded code:
  * `src/gc_toolkit/utils.py` — `find_object_cycles` and its inner
    recursive helper `_find_cycles` (the cycle detector);
  * `src/klo/core.py` — `MemoryProfiler.compare_snapshots`,
    `MemoryProfiler.track_object`, `GarbageCollector.collect`.

Graph nodes are modelled by their identity key (`id(obj)`) as a `Nat`;
the host's reference-enumeration primitive `gc.get_referents` is a
parameter `e : Nat → Option (List Nat)` where `none` models an
enumeration that raises (caught by the bare `except:` in the source).
Python's arbitrary-precision integers are `Int`/`Nat`; `time.time()`
values are passed in as explicit `Int` parameters.
-/

/-- Traversal state of `_find_cycles` (utils.py:126-128): the accumulated
`cycles` result list, the `visited` set of node identities, and the
current DFS `path` stack. -/
structure DfsState where
  cycles : List (List Nat)
  visited : Finset Nat
  path : List Nat
deriving DecidableEq

/-- The recursive helper `_find_cycles(current_obj, depth)` of
utils.py:130-154, phrased with fuel `maxDepth + 1 - depth` so that
`fuel = 0` is exactly the guard `depth > max_depth`.  On a visited node
that lies on the current path it appends `path[path.index(cur):] + [cur]`
to `cycles`; otherwise it marks the node visited, pushes it, folds the
`for ref in referents` loop of utils.py:147-148 over its referents (none
when enumeration fails), then pops it and — as the source does at
utils.py:154 — removes it from `visited` again. -/
def _find_cycles (e : Nat → Option (List Nat)) : Nat → Nat → DfsState → DfsState
  | 0, _, s => s
  | fuel + 1, cur, s =>
    if cur ∈ s.visited then
      if cur ∈ s.path then
        { s with cycles := s.cycles ++ [s.path.drop (s.path.indexOf cur) ++ [cur]] }
      else s
    else
      let s1 : DfsState := { s with visited := insert cur s.visited, path := s.path ++ [cur] }
      let s2 : DfsState :=
        match e cur with
        | none => s1
        | some refs => refs.foldl (fun st r => _find_cycles e fuel r st) s1
      { s2 with visited := s2.visited.erase cur, path := s2.path.dropLast }

/-- Entry point `find_object_cycles(obj, max_depth)` (utils.py:115-157):
fresh empty state, root call at depth 0 (fuel `max_depth + 1`), returns
the accumulated cycle list. -/
def find_object_cycles (e : Nat → Option (List Nat)) (obj : Nat) (max_depth : Nat) :
    List (List Nat) :=
  (_find_cycles e (max_depth + 1) obj ⟨[], ∅, []⟩).cycles

example : find_object_cycles (fun _ => some [0]) 0 0 = [] := by decide
example : find_object_cycles (fun _ => some [0]) 0 1 = [[0, 0]] := by decide
example : find_object_cycles (fun n => if n = 0 then some [1] else some [0]) 0 1 = [] := by
  decide
example : find_object_cycles (fun n => if n = 0 then some [1] else some [0]) 0 2
    = [[0, 1, 0]] := by decide
example :
    find_object_cycles
      (fun n => if n = 0 then some [1, 2] else if n = 1 then some [2] else some [1]) 0 9
      = [[1, 2, 1], [2, 1, 2]] := by decide

/-- The edge relation of the reference graph presented by `e`: node `x`
holds a reference to node `y` (utils.py:146, `gc.get_referents`). -/
def EdgeRel (e : Nat → Option (List Nat)) (x y : Nat) : Prop :=
  ∃ l, e x = some l ∧ y ∈ l

/-- Replace every node whose edge enumeration fails (the `except:` branch
of utils.py:149-151) by an explicit leaf with no outgoing edges. -/
def leafify (e : Nat → Option (List Nat)) : Nat → Option (List Nat) :=
  fun n => some ((e n).getD [])

/-- The same recursion as `_find_cycles` but with the source's literal
shape: an explicit `depth` argument tested against `max_depth`
(utils.py:131-132), and a separate stack-fuel budget `f` that yields
`none` when exhausted.  Used to state that the recursion depth of the
source is bounded by `max_depth`, so a finite budget always suffices. -/
def _find_cycles_f (e : Nat → Option (List Nat)) (max_depth : Nat) :
    Nat → Nat → Nat → DfsState → Option DfsState
  | 0, _, _, _ => none
  | f + 1, cur, depth, s =>
    if max_depth < depth then some s
    else if cur ∈ s.visited then
      some (if cur ∈ s.path then
        { s with cycles := s.cycles ++ [s.path.drop (s.path.indexOf cur) ++ [cur]] }
      else s)
    else
      let s1 : DfsState := { s with visited := insert cur s.visited, path := s.path ++ [cur] }
      let s2? : Option DfsState :=
        match e cur with
        | none => some s1
        | some refs =>
          refs.foldlM (fun st r => _find_cycles_f e max_depth f r (depth + 1) st) s1
      s2?.map fun s2 => { s2 with visited := s2.visited.erase cur, path := s2.path.dropLast }

/-- Entry point of the depth-guarded form: root call at depth 0 with
stack budget `f`. -/
def find_object_cycles_f (e : Nat → Option (List Nat)) (obj : Nat) (max_depth f : Nat) :
    Option (List (List Nat)) :=
  (_find_cycles_f e max_depth f obj 0 ⟨[], ∅, []⟩).map fun s => s.cycles

/-- A stored snapshot (core.py:111-118): label, capture time, resident
set size, virtual memory size, tracked-object count and collector
generation counts.  Python's floats/ints are modelled as `Int`. -/
structure Snapshot where
  label : String
  timestamp : Int
  rss : Int
  vms : Int
  objects_count : Int
  gc_counts : Int × Int × Int
deriving DecidableEq

/-- The comparison record returned by `compare_snapshots`
(core.py:192-199). -/
structure SnapDiff where
  time_diff : Int
  rss_diff : Int
  vms_diff : Int
  objects_diff : Int
  label1 : String
  label2 : String
deriving DecidableEq

/-- Python list subscription `l[i]`: non-negative indices address from
the front, negative indices address from the back, anything else raises
IndexError (modelled as `none`). -/
def pyIndex {α : Type} (l : List α) (i : Int) : Option α :=
  if 0 ≤ i then l.get? i.toNat
  else if 0 ≤ (l.length : Int) + i then l.get? ((l.length : Int) + i).toNat
  else none

/-- A position that Python list subscription accepts on a list of length
`n`: `-n ≤ i < n`. -/
def validIndex (n : Nat) (i : Int) : Prop :=
  -(n : Int) ≤ i ∧ i < (n : Int)

instance (n : Nat) (i : Int) : Decidable (validIndex n i) := by
  unfold validIndex; infer_instance

/-- `MemoryProfiler.compare_snapshots(index1, index2)` (core.py:175-199):
first the explicit guard `index1 >= len or index2 >= len` raises
IndexError, then the two subscriptions `self.snapshots[index]` run (a
negative out-of-range index raises IndexError there instead), and the
deltas are `snap2 - snap1` fieldwise.  `none` models a raised
IndexError. -/
def compare_snapshots (snapshots : List Snapshot) (index1 index2 : Int) : Option SnapDiff :=
  if (snapshots.length : Int) ≤ index1 ∨ (snapshots.length : Int) ≤ index2 then none
  else
    match pyIndex snapshots index1, pyIndex snapshots index2 with
    | some snap1, some snap2 =>
      some { time_diff := snap2.timestamp - snap1.timestamp,
             rss_diff := snap2.rss - snap1.rss,
             vms_diff := snap2.vms - snap1.vms,
             objects_diff := snap2.objects_count - snap1.objects_count,
             label1 := snap1.label,
             label2 := snap2.label }
    | _, _ => none

/-- One entry of `MemoryProfiler.weak_refs` (core.py:142-148): the
referent's identity, the `ref_type` tag (weak, or the strong fallback
when `weakref.ref` raises TypeError), the label, the captured type name
and the creation time. -/
structure TrackEntry where
  refObj : Nat
  ref_type : String
  label : String
  type : String
  created : Int
deriving DecidableEq

/-- Python dict assignment `d[k] = v` on an insertion-ordered dict whose
keys are unique: replace the entry for `k` in place if present,
otherwise append a new entry at the end. -/
def dictInsert (k : String) (v : TrackEntry) :
    List (String × TrackEntry) → List (String × TrackEntry)
  | [] => [(k, v)]
  | (k1, v1) :: t => if k1 = k then (k, v) :: t else (k1, v1) :: dictInsert k v t

/-- Lookup in the same dict model (first — and only — entry for `k`). -/
def dictFind (k : String) (d : List (String × TrackEntry)) : Option TrackEntry :=
  (d.find? fun p => p.1 == k).map fun p => p.2

/-- `MemoryProfiler.track_object(obj, label)` (core.py:123-149): the
handle id is `str(id(obj))`, the entry records a weak reference when the
object's type supports one (`weakable`) and a strong fallback otherwise,
and the entry is stored in `weak_refs` under the id.  Returns the new
registry and the handle id. -/
def track_object (weakable : Nat → Bool) (type_name : Nat → String) (now : Int)
    (weak_refs : List (String × TrackEntry)) (obj : Nat) (label : String) :
    List (String × TrackEntry) × String :=
  let obj_id := toString obj
  let entry : TrackEntry :=
    { refObj := obj,
      ref_type := if weakable obj then "weak" else "strong",
      label := label,
      type := type_name obj,
      created := now }
  (dictInsert obj_id entry weak_refs, obj_id)

/-- The host runtime's collector surface as `GarbageCollector` sees it:
`collect_full` is the result of the unparameterized `gc.collect()`,
`collect_gen g` the result the host would return for `gc.collect(g)`,
and the remaining fields are the statistics read by `_record_stats`
(core.py:67-75). -/
structure HostGC where
  collect_full : Nat
  collect_gen : Nat → Nat
  counts : Nat × Nat × Nat
  stats : List (Nat × Nat × Nat)
  objects_count : Nat

/-- One element of `stats_history` appended by `_record_stats`
(core.py:67-75). -/
structure StatsRecord where
  timestamp : Int
  counts : Nat × Nat × Nat
  stats : List (Nat × Nat × Nat)
  objects_count : Nat

set_option linter.unusedVariables false in
/-- `GarbageCollector.collect(generation)` (core.py:29-41): despite its
`generation` parameter it invokes the unparameterized `gc.collect()`
(core.py:39), records statistics, and returns the collected count. -/
def GarbageCollector.collect (host : HostGC) (now : Int)
    (stats_history : List StatsRecord) (generation : Nat) : Nat × List StatsRecord :=
  let collected := host.collect_full
  (collected,
    stats_history ++
      [{ timestamp := now, counts := host.counts, stats := host.stats,
         objects_count := host.objects_count }])

/-! Helper lemmas about the traversal state. -/

/-- After any call of `_find_cycles` the visited set and the current path
are restored to their pre-call contents: the pop at utils.py:153 undoes
the push, and the removal at utils.py:154 undoes the insertion. -/
theorem dfs_restore (e : Nat → Option (List Nat)) :
    ∀ fuel cur s, ((_find_cycles e fuel cur s).visited = s.visited ∧
      (_find_cycles e fuel cur s).path = s.path) := by
  intro fuel
  induction fuel with
  | zero => intro cur s; exact ⟨rfl, rfl⟩
  | succ fuel ih =>
    intro cur s
    by_cases hv : cur ∈ s.visited
    · by_cases hp : cur ∈ s.path <;> simp [_find_cycles, hv, hp]
    · have hfold : ∀ (refs : List Nat) (t : DfsState),
          ((refs.foldl (fun st r => _find_cycles e fuel r st) t).visited = t.visited ∧
            (refs.foldl (fun st r => _find_cycles e fuel r st) t).path = t.path) := by
        intro refs
        induction refs with
        | nil => intro t; exact ⟨rfl, rfl⟩
        | cons r rs ihr =>
          intro t
          obtain ⟨h1, h2⟩ := ih r t
          obtain ⟨h3, h4⟩ := ihr (_find_cycles e fuel r t)
          exact ⟨by simpa [h1] using h3, by simpa [h2] using h4⟩
      cases he : e cur with
      | none =>
        refine ⟨?_, ?_⟩ <;> simp [_find_cycles, hv, he, Finset.erase_insert hv]
      | some refs =>
        obtain ⟨hfv, hfp⟩ :=
          hfold refs { s with visited := insert cur s.visited, path := s.path ++ [cur] }
        refine ⟨?_, ?_⟩ <;>
          simp [_find_cycles, hv, he, hfv, hfp, Finset.erase_insert hv]

/-- The `cycles` accumulator only ever grows: the result extends the
input by some suffix. -/
theorem dfs_cycles_mono (e : Nat → Option (List Nat)) :
    ∀ fuel cur s, ∃ t, (_find_cycles e fuel cur s).cycles = s.cycles ++ t := by
  intro fuel
  induction fuel with
  | zero => intro cur s; exact ⟨[], by simp [_find_cycles]⟩
  | succ fuel ih =>
    intro cur s
    by_cases hv : cur ∈ s.visited
    · by_cases hp : cur ∈ s.path
      · exact ⟨[s.path.drop (s.path.indexOf cur) ++ [cur]], by simp [_find_cycles, hv, hp]⟩
      · exact ⟨[], by simp [_find_cycles, hv, hp]⟩
    · have hfold : ∀ (refs : List Nat) (t : DfsState),
          ∃ u, (refs.foldl (fun st r => _find_cycles e fuel r st) t).cycles = t.cycles ++ u := by
        intro refs
        induction refs with
        | nil => intro t; exact ⟨[], by simp⟩
        | cons r rs ihr =>
          intro t
          obtain ⟨u1, hu1⟩ := ih r t
          obtain ⟨u2, hu2⟩ := ihr (_find_cycles e fuel r t)
          exact ⟨u1 ++ u2, by simp [List.foldl_cons, hu2, hu1]⟩
      cases he : e cur with
      | none => exact ⟨[], by simp [_find_cycles, hv, he]⟩
      | some refs =>
        obtain ⟨u, hu⟩ :=
          hfold refs { s with visited := insert cur s.visited, path := s.path ++ [cur] }
        exact ⟨u, by simpa [_find_cycles, hv, he] using hu⟩

/-! Claim C2 — visited-set persistence. -/

/-- Claim C2, counterexample.  The graph is `0 → [1]`, `1 → []`; the
state `⟨[], {0}, [0]⟩` is exactly the state in which the call on node 0
recurses into node 1.  When that inner recursion on node 1 returns, the
enclosing call on node 0 is still running, yet node 1 is no longer in
the visited set — `visited.remove` at utils.py:154 has taken it out
again, contradicting the claim that the visited set accumulates every
identity seen and never shrinks before the whole call ends. -/
theorem visited_removed_cex :
    1 ∉ (_find_cycles (fun n => if n = 0 then some [1] else some []) 4 1
      ⟨[], {0}, [0]⟩).visited := by decide

/-- Claim C2, amended.  When the depth-first recursion on a node
returns, the node is popped from `currentPath` and its identity is also
removed from `visitedSet`: both traversal structures are restored to
exactly their pre-call contents. -/
theorem dfs_state_restored_claim (e : Nat → Option (List Nat)) (fuel cur : Nat)
    (s : DfsState) :
    (_find_cycles e fuel cur s).visited = s.visited ∧
      (_find_cycles e fuel cur s).path = s.path :=
  dfs_restore e fuel cur s

/-! Claim C6 — failed edge enumeration is a local no-op. -/

/-- Replacing every failing enumeration by an explicit empty edge list
leaves every traversal state unchanged. -/
theorem dfs_leafify_eq (e : Nat → Option (List Nat)) :
    ∀ fuel cur s, _find_cycles (leafify e) fuel cur s = _find_cycles e fuel cur s := by
  intro fuel
  induction fuel with
  | zero => intro cur s; rfl
  | succ fuel ih =>
    intro cur s
    by_cases hv : cur ∈ s.visited
    · by_cases hp : cur ∈ s.path <;> simp [_find_cycles, hv, hp]
    · have hfold : ∀ (refs : List Nat) (t : DfsState),
          refs.foldl (fun st r => _find_cycles (leafify e) fuel r st) t =
            refs.foldl (fun st r => _find_cycles e fuel r st) t := by
        intro refs
        induction refs with
        | nil => intro t; rfl
        | cons r rs ihr =>
          intro t
          simp only [List.foldl_cons, ih r t, ihr (_find_cycles e fuel r t)]
      cases he : e cur with
      | none => simp [_find_cycles, hv, he, leafify]
      | some refs => simp [_find_cycles, hv, he, leafify, hfold]

/-- Claim C6.  A node whose outgoing-edge enumeration fails contributes
no edges and raises nothing: the whole result of `find_object_cycles` is
the same as if every such node explicitly reported an empty edge list,
so the failure is recovered locally and the rest of the traversal is
unaffected. -/
theorem find_cycles_leafify_eq (e : Nat → Option (List Nat)) (root max_depth : Nat) :
    find_object_cycles (leafify e) root max_depth = find_object_cycles e root max_depth := by
  unfold find_object_cycles
  rw [dfs_leafify_eq]

/-! Claim C3 — acyclic graphs yield no cycles. -/

/-- From any member of a chain there is a reflexive-transitive path to
the chain's last element. -/
theorem chain_reach {R : Nat → Nat → Prop} :
    ∀ l : List Nat, l.Chain' R → ∀ x ∈ l, ∀ p, l.getLast? = some p →
      Relation.ReflTransGen R x p := by
  intro l
  induction l with
  | nil => intro _ x hx; exact absurd hx (List.not_mem_nil x)
  | cons a t iht =>
    intro hc x hx p hp
    cases t with
    | nil =>
      rcases List.mem_singleton.mp hx with rfl
      cases hp
      exact Relation.ReflTransGen.refl
    | cons b t' =>
      have hab : R a b := (List.chain'_cons.mp hc).1
      have hct : (b :: t').Chain' R := (List.chain'_cons.mp hc).2
      have hp' : (b :: t').getLast? = some p := by
        rwa [List.getLast?_cons_cons] at hp
      rcases List.mem_cons.mp hx with rfl | hx'
      · exact Relation.ReflTransGen.head hab (iht hct b (List.mem_cons_self b t') p hp')
      · exact iht hct x hx' p hp'

/-- Core invariant for acyclic graphs: if the current path is a chain of
edges whose last element (when present) has an edge to the node being
visited, then `_find_cycles` appends nothing to `cycles`. -/
theorem dfs_acyclic (e : Nat → Option (List Nat))
    (hac : ∀ x, ¬ Relation.TransGen (EdgeRel e) x x) :
    ∀ fuel cur s, s.path.Chain' (EdgeRel e) →
      (∀ p, s.path.getLast? = some p → EdgeRel e p cur) →
      (_find_cycles e fuel cur s).cycles = s.cycles := by
  intro fuel
  induction fuel with
  | zero => intro cur s _ _; rfl
  | succ fuel ih =>
    intro cur s hchain hlast
    by_cases hv : cur ∈ s.visited
    · by_cases hp : cur ∈ s.path
      · exfalso
        have hne : s.path ≠ [] := List.ne_nil_of_mem hp
        obtain ⟨p, hpl⟩ := Option.isSome_iff_exists.mp (List.getLast?_isSome.mpr hne)
        have hreach : Relation.ReflTransGen (EdgeRel e) cur p :=
          chain_reach s.path hchain cur hp p hpl
        exact hac cur (Relation.TransGen.tail' hreach (hlast p hpl))
      · simp [_find_cycles, hv, hp]
    · have hchain1 : (s.path ++ [cur]).Chain' (EdgeRel e) := by
        rw [List.chain'_append]
        refine ⟨hchain, List.chain'_singleton cur, ?_⟩
        intro p hpl y hy
        cases hy
        exact hlast p hpl
      have hfold : ∀ (refs : List Nat), (∀ r ∈ refs, EdgeRel e cur r) →
          ∀ t : DfsState, t.path = s.path ++ [cur] →
          (refs.foldl (fun st r => _find_cycles e fuel r st) t).cycles = t.cycles := by
        intro refs
        induction refs with
        | nil => intro _ t _; rfl
        | cons r rs ihr =>
          intro hedge t htp
          have hstep : (_find_cycles e fuel r t).cycles = t.cycles := by
            refine ih r t ?_ ?_
            · rw [htp]; exact hchain1
            · intro p hpl
              rw [htp, List.getLast?_concat] at hpl
              cases hpl
              exact hedge r (List.mem_cons_self r rs)
          have hrest := ihr (fun x hx => hedge x (List.mem_cons_of_mem r hx))
            (_find_cycles e fuel r t) (by rw [(dfs_restore e fuel r t).2, htp])
          simp only [List.foldl_cons, hrest, hstep]
      cases he : e cur with
      | none => simp [_find_cycles, hv, he]
      | some refs =>
        have hf := hfold refs
          (fun r hr => ⟨refs, he, hr⟩)
          { s with visited := insert cur s.visited, path := s.path ++ [cur] } rfl
        simpa [_find_cycles, hv, he] using hf

/-- Claim C3.  For every acyclic reference graph — and likewise whenever
the root has no outgoing edges at all — `find_object_cycles` returns the
empty list for every root and every depth bound, and being a total
function it raises no error. -/
theorem find_cycles_acyclic_empty (e : Nat → Option (List Nat)) (root max_depth : Nat)
    (h : (∀ x, ¬ Relation.TransGen (EdgeRel e) x x) ∨ e root = some [] ∨ e root = none) :
    find_object_cycles e root max_depth = [] := by
  rcases h with hac | hroot | hroot
  · unfold find_object_cycles
    exact dfs_acyclic e hac (max_depth + 1) root ⟨[], ∅, []⟩ List.chain'_nil
      (fun p hp => by cases hp)
  · simp [find_object_cycles, _find_cycles, hroot]
  · simp [find_object_cycles, _find_cycles, hroot]

/-- Claim C3, witness: the one-node graph whose root has no outgoing
edges. -/
theorem find_cycles_acyclic_empty_witness :
    find_object_cycles (fun _ => some []) 0 3 = [] :=
  find_cycles_acyclic_empty (fun _ => some []) 0 3 (Or.inr (Or.inl rfl))

/-! Claim C1 — a self-referencing node. -/

/-- Fold form of cycles-monotonicity: the referent loop only appends. -/
theorem dfs_fold_cycles_mono (e : Nat → Option (List Nat)) (fuel : Nat) :
    ∀ (refs : List Nat) (t : DfsState),
      ∃ u, (refs.foldl (fun st r => _find_cycles e fuel r st) t).cycles = t.cycles ++ u := by
  intro refs
  induction refs with
  | nil => intro t; exact ⟨[], by simp⟩
  | cons r rs ihr =>
    intro t
    obtain ⟨u1, hu1⟩ := dfs_cycles_mono e fuel r t
    obtain ⟨u2, hu2⟩ := ihr (_find_cycles e fuel r t)
    exact ⟨u1 ++ u2, by simp [List.foldl_cons, hu2, hu1]⟩

/-- If the referent loop of a node reaches an element `a` that is
already visited and on the current path, the corresponding cycle record
is in the accumulated result. -/
theorem dfs_fold_self_mem (e : Nat → Option (List Nat)) (a : Nat) (fuel : Nat)
    (hfuel : 1 ≤ fuel) :
    ∀ (refs : List Nat) (s : DfsState), a ∈ refs → a ∈ s.visited → a ∈ s.path →
      (s.path.drop (s.path.indexOf a) ++ [a]) ∈
        (refs.foldl (fun st r => _find_cycles e fuel r st) s).cycles := by
  intro refs
  induction refs with
  | nil => intro s hm; exact absurd hm (List.not_mem_nil a)
  | cons r rs ihr =>
    intro s hm hv hp
    obtain ⟨g, rfl⟩ : ∃ g, fuel = g + 1 := ⟨fuel - 1, by omega⟩
    rcases List.mem_cons.mp hm with rfl | hm'
    · have hstep : (_find_cycles e (g + 1) a s).cycles =
          s.cycles ++ [s.path.drop (s.path.indexOf a) ++ [a]] := by
        simp [_find_cycles, hv, hp]
      obtain ⟨u, hu⟩ := dfs_fold_cycles_mono e (g + 1) rs (_find_cycles e (g + 1) a s)
      simp only [List.foldl_cons, hu, hstep]
      simp
    · have hrv := (dfs_restore e (g + 1) r s).1
      have hrp := (dfs_restore e (g + 1) r s).2
      have := ihr (_find_cycles e (g + 1) r s) hm' (by rwa [hrv]) (by rwa [hrp])
      simpa only [List.foldl_cons, hrp] using this

/-- Claim C1, counterexample.  For the self-loop `0 → 0` with
`maxDepth = 0`, `find_object_cycles` returns no cycle at all: the
recursion into the self edge happens at depth 1, which the guard
`depth > max_depth` (utils.py:131) already cuts off.  The claim's
`maxDepth ≥ 0` is therefore wrong at `maxDepth = 0`. -/
theorem self_loop_depth0_cex :
    find_object_cycles (fun _ => some [0]) 0 0 = [] := by decide

/-- Claim C1, amended.  For every node `a` holding a reference to itself
and every `maxDepth ≥ 1`, `find_object_cycles(a, maxDepth)` returns
(among its records) the CycleRecord for the length-1 cycle `[a]`,
emitted — as the path-suffix-plus-closing-node rule prescribes — as the
sequence `[a, a]`. -/
theorem find_cycles_self_loop_mem (e : Nat → Option (List Nat)) (a : Nat) (l : List Nat)
    (max_depth : Nat) (he : e a = some l) (hmem : a ∈ l) (hd : 1 ≤ max_depth) :
    [a, a] ∈ find_object_cycles e a max_depth := by
  obtain ⟨d, rfl⟩ : ∃ d, max_depth = d + 1 := ⟨max_depth - 1, by omega⟩
  have hmain := dfs_fold_self_mem e a (d + 1) (by omega) l
    ⟨[], insert a ∅, [a]⟩ hmem (Finset.mem_insert_self a ∅) (by simp)
  simp only [List.indexOf_cons_self, List.drop_zero] at hmain
  simpa [find_object_cycles, _find_cycles, he] using hmain

/-- Claim C1, witness at the concrete self-loop `0 → 0` with
`maxDepth = 1`. -/
theorem find_cycles_self_loop_mem_witness :
    [0, 0] ∈ find_object_cycles (fun _ => some [0]) 0 1 :=
  find_cycles_self_loop_mem (fun _ => some [0]) 0 [0] 1 rfl (by decide) (by decide)

/-! Claim C4 — a two-node mutual reference. -/

/-- The reference graph consisting exactly of the edges `a → b` and
`b → a`. -/
def mutualE (a b : Nat) : Nat → Option (List Nat) :=
  fun n => if n = a then some [b] else if n = b then some [a] else some []

/-- Claim C4, counterexample.  On the mutual pair `0 ↔ 1` with
`maxDepth = 1` the detector returns no record at all: closing the loop
requires re-encountering node 0 at depth 2, beyond the bound.  The
claim's `maxDepth ≥ 1` is therefore wrong at `maxDepth = 1`. -/
theorem mutual_pair_depth1_cex :
    find_object_cycles (mutualE 0 1) 0 1 = [] := by decide

/-- Claim C4, amended.  For the two-node mutual reference `a → b`,
`b → a` and every `maxDepth ≥ 2`, `find_object_cycles(a, maxDepth)`
returns exactly one CycleRecord, namely `[a, b, a]`, containing both
nodes in path order. -/
theorem mutual_pair_cycle (a b : Nat) (hab : a ≠ b) (max_depth : Nat) (hd : 2 ≤ max_depth) :
    find_object_cycles (mutualE a b) a max_depth = [[a, b, a]] := by
  obtain ⟨k, rfl⟩ : ∃ k, max_depth = k + 2 := ⟨max_depth - 2, by omega⟩
  have hba : b ≠ a := fun h => hab h.symm
  simp [find_object_cycles, _find_cycles, mutualE, hab, hba, List.indexOf_cons_self]

/-- Claim C4, witness at the concrete pair `0 ↔ 1` with `maxDepth = 2`. -/
theorem mutual_pair_cycle_witness :
    find_object_cycles (mutualE 0 1) 0 2 = [[0, 1, 0]] :=
  mutual_pair_cycle 0 1 (by decide) 2 (by decide)

/-! Claim C5 — termination with recursion depth bounded by maxDepth. -/

/-- With any stack budget of at least `max_depth + 2 - depth`, the
depth-guarded recursion of the source never exhausts the budget and
computes exactly the total function `_find_cycles`. -/
theorem dfs_f_eq (e : Nat → Option (List Nat)) (max_depth : Nat) :
    ∀ f, 1 ≤ f → ∀ cur depth s, max_depth + 2 ≤ f + depth →
      _find_cycles_f e max_depth f cur depth s =
        some (_find_cycles e (max_depth + 1 - depth) cur s) := by
  intro f
  induction f with
  | zero => intro h; exact absurd h (by decide)
  | succ g ih =>
    intro _ cur depth s hfd
    by_cases hdep : max_depth < depth
    · have h0 : max_depth + 1 - depth = 0 := by omega
      rw [h0]
      simp [_find_cycles_f, _find_cycles, hdep]
    · have h1 : max_depth + 1 - depth = (max_depth - depth) + 1 := by omega
      rw [h1]
      by_cases hv : cur ∈ s.visited
      · by_cases hp : cur ∈ s.path <;>
          simp [_find_cycles_f, _find_cycles, hdep, hv, hp]
      · have hg1 : 1 ≤ g := by omega
        have hfold : ∀ (refs : List Nat) (t : DfsState),
            refs.foldlM (fun st r => _find_cycles_f e max_depth g r (depth + 1) st) t =
              some (refs.foldl (fun st r => _find_cycles e (max_depth - depth) r st) t) := by
          intro refs
          induction refs with
          | nil => intro t; rfl
          | cons r rs ihr =>
            intro t
            have hstep := ih hg1 r (depth + 1) t (by omega)
            have h2 : max_depth + 1 - (depth + 1) = max_depth - depth := by omega
            rw [h2] at hstep
            rw [List.foldlM_cons, hstep]
            simpa using ihr (_find_cycles e (max_depth - depth) r t)
        cases he : e cur with
        | none => simp [_find_cycles_f, _find_cycles, hdep, hv, he]
        | some refs =>
          simp [_find_cycles_f, _find_cycles, hdep, hv, he, hfold]

/-- Claim C5.  `find_object_cycles` terminates on every reference graph
(every edge enumeration returning a finite list per node) and every
`maxDepth`: the recursion depth is bounded by `maxDepth`, so any stack
budget of at least `maxDepth + 2` frames suffices and the depth-guarded
recursion yields the (total) result. -/
theorem find_cycles_fuel_terminates (e : Nat → Option (List Nat)) (obj max_depth f : Nat)
    (hf : max_depth + 2 ≤ f) :
    find_object_cycles_f e obj max_depth f = some (find_object_cycles e obj max_depth) := by
  unfold find_object_cycles_f find_object_cycles
  rw [dfs_f_eq e max_depth f (by omega) obj 0 ⟨[], ∅, []⟩ (by omega)]
  simp

/-- Claim C5, witness: a cyclic two-node graph, `maxDepth = 2`, budget
4. -/
theorem find_cycles_fuel_terminates_witness :
    find_object_cycles_f (mutualE 0 1) 0 2 4 = some (find_object_cycles (mutualE 0 1) 0 2) :=
  find_cycles_fuel_terminates (mutualE 0 1) 0 2 4 (by decide)

/-! Claim C7 — snapshot diff index validation. -/

/-- Python subscription succeeds exactly on the valid positions
`-len ≤ i < len`. -/
theorem pyIndex_isSome {α : Type} (l : List α) (i : Int) :
    (pyIndex l i).isSome ↔ validIndex l.length i := by
  have hlen : ∀ n : Nat, (l.get? n).isSome ↔ n < l.length := by
    intro n
    rw [Option.isSome_iff_ne_none, Ne, List.get?_eq_none]
    omega
  unfold pyIndex validIndex
  by_cases h0 : 0 ≤ i
  · rw [if_pos h0, hlen]
    omega
  · rw [if_neg h0]
    by_cases h1 : 0 ≤ (l.length : Int) + i
    · rw [if_pos h1, hlen]
      omega
    · rw [if_neg h1]
      simp only [Option.isSome_none, Bool.false_eq_true, false_iff]
      omega

/-- Claim C7.  `compare_snapshots(i, j)` raises IndexError exactly when
`i` or `j` is not a valid existing position of the stored snapshot list
(valid positions being `-len ≤ i < len`, since Python subscription also
accepts negative positions); in particular it fails for any index at or
above the snapshot count and succeeds on all valid positions. -/
theorem compare_snapshots_isSome_iff (l : List Snapshot) (i j : Int) :
    (compare_snapshots l i j).isSome ↔ validIndex l.length i ∧ validIndex l.length j := by
  have hi := pyIndex_isSome l i
  have hj := pyIndex_isSome l j
  unfold compare_snapshots
  by_cases hg : (l.length : Int) ≤ i ∨ (l.length : Int) ≤ j
  · rw [if_pos hg]
    unfold validIndex
    simp only [Option.isSome_none, Bool.false_eq_true, false_iff]
    omega
  · rw [if_neg hg]
    rcases hpi : pyIndex l i with _ | s1
    · rw [hpi] at hi
      simp only [Option.isSome_none, Bool.false_eq_true, false_iff] at hi
      simp [hi]
    · rw [hpi] at hi
      rcases hpj : pyIndex l j with _ | s2
      · rw [hpj] at hj
        simp only [Option.isSome_none, Bool.false_eq_true, false_iff] at hj
        simp [hj]
      · rw [hpj] at hj
        simp only [Option.isSome_some, true_iff] at hi hj
        simp [hi, hj]

/-! Claim C8 — snapshot diffs negate under index swap. -/

/-- Claim C8.  Whenever both `diff(i, j)` and `diff(j, i)` succeed, each
numeric delta of the one is the negation of the corresponding delta of
the other. -/
theorem compare_snapshots_antisymm (l : List Snapshot) (i j : Int) (d1 d2 : SnapDiff)
    (h1 : compare_snapshots l i j = some d1) (h2 : compare_snapshots l j i = some d2) :
    d1.time_diff = -d2.time_diff ∧ d1.rss_diff = -d2.rss_diff ∧
      d1.vms_diff = -d2.vms_diff ∧ d1.objects_diff = -d2.objects_diff := by
  unfold compare_snapshots at h1 h2
  split at h1
  · exact absurd h1 (by simp)
  split at h2
  · exact absurd h2 (by simp)
  rcases hpi : pyIndex l i with _ | s1
  · rw [hpi] at h1
    simp at h1
  · rcases hpj : pyIndex l j with _ | s2
    · rw [hpi, hpj] at h1
      simp at h1
    · rw [hpi, hpj] at h1
      rw [hpi, hpj] at h2
      simp only [Option.some.injEq] at h1 h2
      subst h1
      subst h2
      refine ⟨?_, ?_, ?_, ?_⟩ <;> simp

/-- A concrete two-snapshot store for the C8 witness. -/
def demoSnapshots : List Snapshot :=
  [{ label := "a", timestamp := 10, rss := 100, vms := 200, objects_count := 7,
     gc_counts := (1, 2, 3) },
   { label := "b", timestamp := 15, rss := 150, vms := 180, objects_count := 10,
     gc_counts := (4, 5, 6) }]

/-- The diff of the demo store in order (0, 1). -/
def demoDiff01 : SnapDiff := ⟨5, 50, -20, 3, "a", "b"⟩

/-- The diff of the demo store in order (1, 0). -/
def demoDiff10 : SnapDiff := ⟨-5, -50, 20, -3, "b", "a"⟩

/-- Claim C8, witness on the concrete two-snapshot store. -/
theorem compare_snapshots_antisymm_witness :
    demoDiff01.time_diff = -demoDiff10.time_diff ∧
      demoDiff01.rss_diff = -demoDiff10.rss_diff ∧
      demoDiff01.vms_diff = -demoDiff10.vms_diff ∧
      demoDiff01.objects_diff = -demoDiff10.objects_diff :=
  compare_snapshots_antisymm demoSnapshots 0 1 demoDiff01 demoDiff10 (by decide) (by decide)

/-! Claim C9 — re-tracking the same object. -/

/-- Updating the same dict key twice is the same as updating it once
with the later value. -/
theorem dictInsert_dictInsert (k : String) (v1 v2 : TrackEntry) :
    ∀ d : List (String × TrackEntry),
      dictInsert k v2 (dictInsert k v1 d) = dictInsert k v2 d := by
  intro d
  induction d with
  | nil => simp [dictInsert]
  | cons p t iht =>
    obtain ⟨k1, e1⟩ := p
    by_cases hk : k1 = k
    · subst hk
      simp [dictInsert]
    · simp [dictInsert, hk, iht]

/-- Claim C9, counterexample.  Tracking object 5 as "x" and then again
as "y" does not create a second handle: the second call returns the very
same id (`str(id(obj))`, core.py:134), and the registry afterwards holds
a single entry whose label is "y" — the first handle's entry has been
overwritten, i.e. handles are deduplicated by object identity. -/
theorem track_object_same_obj_cex :
    ((track_object (fun _ => true) (fun _ => "T") 1
        (track_object (fun _ => true) (fun _ => "T") 0 [] 5 "x").1 5 "y").2
      = (track_object (fun _ => true) (fun _ => "T") 0 [] 5 "x").2) ∧
    (track_object (fun _ => true) (fun _ => "T") 1
        (track_object (fun _ => true) (fun _ => "T") 0 [] 5 "x").1 5 "y").1
      = [("5", { refObj := 5, ref_type := "weak", label := "y", type := "T",
                 created := 1 })] := by
  constructor <;> rfl

/-- Claim C9, amended.  Re-registering the same object (under any
labels, at any times, in any registry state) replaces the existing
entry: the resulting registry is identical to the one obtained by
registering the object once with the second label, and both calls
return the same handle id. -/
theorem track_object_overwrite (weakable : Nat → Bool) (type_name : Nat → String)
    (n1 n2 : Int) (d : List (String × TrackEntry)) (obj : Nat) (l1 l2 : String) :
    track_object weakable type_name n2 (track_object weakable type_name n1 d obj l1).1 obj l2
        = track_object weakable type_name n2 d obj l2 ∧
      (track_object weakable type_name n1 d obj l1).2
        = (track_object weakable type_name n2 d obj l2).2 := by
  constructor
  · simp [track_object, dictInsert_dictInsert]
  · rfl

/-! Claim C10 — force-collect ignores its generation argument. -/

/-- Claim C10.  `GarbageCollector.collect` invokes the host's
unparameterized full collection whatever generation is passed: for any
two generations on identical host state it performs the same collection
and returns the same collected count. -/
theorem collect_ignores_generation (host : HostGC) (now : Int)
    (stats_history : List StatsRecord) (g1 g2 : Nat) :
    GarbageCollector.collect host now stats_history g1
        = GarbageCollector.collect host now stats_history g2 ∧
      (GarbageCollector.collect host now stats_history g1).1 = host.collect_full :=
  ⟨rfl, rfl⟩
